import Mathlib

/-! The local file driver of farzai/cache-go

A shallow embedding of `local/local.go`: the driver keeps one journal file per
cache key, `Set` appends a JSON record to it, `Get` scans the records from the
oldest one, `Delete` removes the file.

What the Go standard library does is modelled where the code depends on it:

* bytes are natural numbers below 256, a Go string is its sequence of
  characters (keys are taken to be valid UTF-8 text);
* `encoding/base64`, `crypto/md5` and the `%x` verb are written out in full;
* a JSON document is kept as its abstract form (`Json`), a number literal as
  `mant * 10 ^ exp10`; decoding into `interface{}` produces the dynamic values
  of `Iface`, every number becoming a `float64` (`ParseFloat`);
* a file is the list of the units the stream decoder meets (`Chunk`), the file
  system a map from paths to `Node`s;
* the clock is read as an integer count of nanoseconds (`UnixNano`), and one
  call of `Get` is taken at one reading of it.
-/

namespace Local

/-! ## Errors -/

/-- The Go `error` values the driver can return: the two kinds of failure of a
system call, an error of `encoding/json` known by its message, the
`*json.UnmarshalTypeError` of a document of the JSON kind `value` ("array",
"string", "number", "bool") met where a map is decoded, that of a number
literal `mant * 10 ^ exp10` that no `float64` holds, and `fmt.Errorf(msg)`. -/
inductive Error
  | notExist
  | os (errno : Nat)
  | json (msg : String)
  | unmarshalType (value : String)
  | numberRange (mant exp10 : Int)
  | errorf (msg : String)
deriving DecidableEq

/-- Go `os.IsNotExist` on a returned error (`none` is the nil error). -/
def IsNotExist : Option Error → Bool
  | some .notExist => true
  | _ => false

/-! ## Key mapper: base64, MD5, hexadecimal rendering -/

/-- UTF-8 bytes of one character. -/
def utf8Char (ch : Char) : List Nat :=
  let n := ch.toNat
  if n < 0x80 then [n]
  else if n < 0x800 then [0xC0 + n / 64, 0x80 + n % 64]
  else if n < 0x10000 then [0xE0 + n / 4096, 0x80 + n / 64 % 64, 0x80 + n % 64]
  else [0xF0 + n / 262144, 0x80 + n / 4096 % 64, 0x80 + n / 64 % 64, 0x80 + n % 64]

/-- Go `[]byte(s)`: the bytes of a string. -/
def bytesOfString (s : String) : List Nat :=
  s.data.foldr (fun ch acc => utf8Char ch ++ acc) []

/-- The alphabet of `base64.StdEncoding`. -/
def encodeStd : List Char :=
  "ABCDEFGHIJKLMNOPQRSTUVWXYZabcdefghijklmnopqrstuvwxyz0123456789+/".data

/-- The base64 character of a 6-bit group. -/
def base64Char (i : Nat) : Char := encodeStd.getD i 'A'

/-- Base64 of a byte sequence, three bytes to four characters, padded with `=`. -/
def base64Chars : List Nat → List Char
  | [] => []
  | [a] => [base64Char (a / 4), base64Char (a % 4 * 16), '=', '=']
  | [a, b] => [base64Char (a / 4), base64Char (a % 4 * 16 + b / 16), base64Char (b % 16 * 4), '=']
  | a :: b :: c :: rest =>
      base64Char (a / 4) :: base64Char (a % 4 * 16 + b / 16)
        :: base64Char (b % 16 * 4 + c / 64) :: base64Char (c % 64) :: base64Chars rest

/-- Go `base64.StdEncoding.EncodeToString`. -/
def EncodeToString (src : List Nat) : String := String.mk (base64Chars src)

/-- Per-round left-rotation amounts of MD5. -/
def md5Shift : List Nat :=
  [7, 12, 17, 22, 7, 12, 17, 22, 7, 12, 17, 22, 7, 12, 17, 22,
   5, 9, 14, 20, 5, 9, 14, 20, 5, 9, 14, 20, 5, 9, 14, 20,
   4, 11, 16, 23, 4, 11, 16, 23, 4, 11, 16, 23, 4, 11, 16, 23,
   6, 10, 15, 21, 6, 10, 15, 21, 6, 10, 15, 21, 6, 10, 15, 21]

/-- The sine-derived constants of MD5. -/
def md5K : List Nat :=
  [0xd76aa478, 0xe8c7b756, 0x242070db, 0xc1bdceee, 0xf57c0faf, 0x4787c62a, 0xa8304613, 0xfd469501,
   0x698098d8, 0x8b44f7af, 0xffff5bb1, 0x895cd7be, 0x6b901122, 0xfd987193, 0xa679438e, 0x49b40821,
   0xf61e2562, 0xc040b340, 0x265e5a51, 0xe9b6c7aa, 0xd62f105d, 0x02441453, 0xd8a1e681, 0xe7d3fbc8,
   0x21e1cde6, 0xc33707d6, 0xf4d50d87, 0x455a14ed, 0xa9e3e905, 0xfcefa3f8, 0x676f02d9, 0x8d2a4c8a,
   0xfffa3942, 0x8771f681, 0x6d9d6122, 0xfde5380c, 0xa4beea44, 0x4bdecfa9, 0xf6bb4b60, 0xbebfbc70,
   0x289b7ec6, 0xeaa127fa, 0xd4ef3085, 0x04881d05, 0xd9d4d039, 0xe6db99e5, 0x1fa27cf8, 0xc4ac5665,
   0xf4292244, 0x432aff97, 0xab9423a7, 0xfc93a039, 0x655b59c3, 0x8f0ccc92, 0xffeff47d, 0x85845dd1,
   0x6fa87e4f, 0xfe2ce6e0, 0xa3014314, 0x4e0811a1, 0xf7537e82, 0xbd3af235, 0x2ad7d2bb, 0xeb86d391]

/-- The modulus of 32-bit words. -/
def word32 : Nat := 4294967296

/-- Rotate a 32-bit word left by `n` bits. -/
def rotl32 (x n : Nat) : Nat := (x * 2 ^ n + x / 2 ^ (32 - n)) % word32

/-- Bitwise complement of a 32-bit word. -/
def not32 (x : Nat) : Nat := word32 - 1 - x % word32

/-- The four chaining words of MD5. -/
structure Digest where
  a : Nat
  b : Nat
  c : Nat
  d : Nat

/-- One of the 64 operations of the MD5 compression function on message words `m`. -/
def md5Step (m : List Nat) (s : Digest) (i : Nat) : Digest :=
  let f :=
    if i < 16 then (s.b &&& s.c) ||| (not32 s.b &&& s.d)
    else if i < 32 then (s.d &&& s.b) ||| (not32 s.d &&& s.c)
    else if i < 48 then s.b ^^^ s.c ^^^ s.d
    else s.c ^^^ (s.b ||| not32 s.d)
  let g :=
    if i < 16 then i
    else if i < 32 then (5 * i + 1) % 16
    else if i < 48 then (3 * i + 5) % 16
    else (7 * i) % 16
  let x := (f + s.a + md5K.getD i 0 + m.getD g 0) % word32
  ⟨s.d, (s.b + rotl32 x (md5Shift.getD i 0)) % word32, s.b, s.c⟩

/-- The four little-endian bytes of a 32-bit word. -/
def le32 (x : Nat) : List Nat := [x % 256, x / 256 % 256, x / 65536 % 256, x / 16777216 % 256]

/-- The little-endian word at the head of a byte sequence. -/
def wordOf (bs : List Nat) : Nat :=
  bs.getD 0 0 + 256 * bs.getD 1 0 + 65536 * bs.getD 2 0 + 16777216 * bs.getD 3 0

/-- The sixteen message words of a 64-byte block. -/
def wordsOf (block : List Nat) : List Nat :=
  (List.range 16).map (fun j => wordOf (block.drop (4 * j)))

/-- The MD5 compression function on one block. -/
def md5Block (s : Digest) (block : List Nat) : Digest :=
  let r := (List.range 64).foldl (md5Step (wordsOf block)) s
  ⟨(s.a + r.a) % word32, (s.b + r.b) % word32, (s.c + r.c) % word32, (s.d + r.d) % word32⟩

/-- Compress `n` successive 64-byte blocks. -/
def md5Blocks : Nat → Digest → List Nat → Digest
  | 0, s, _ => s
  | n + 1, s, bs => md5Blocks n (md5Block s (bs.take 64)) (bs.drop 64)

/-- The eight little-endian bytes of a 64-bit length. -/
def le64 (x : Nat) : List Nat := (List.range 8).map (fun j => x / 256 ^ j % 256)

/-- MD5 padding: a 0x80 byte, zeros up to 56 modulo 64, the bit length. -/
def md5Pad (msg : List Nat) : List Nat :=
  msg ++ [0x80] ++ List.replicate ((119 - msg.length % 64) % 64) 0
    ++ le64 (8 * msg.length % 2 ^ 64)

/-- Go `md5.Sum`: the 16-byte digest. -/
def Sum (data : List Nat) : List Nat :=
  let p := md5Pad data
  let s := md5Blocks (p.length / 64) ⟨0x67452301, 0xefcdab89, 0x98badcfe, 0x10325476⟩ p
  le32 s.a ++ le32 s.b ++ le32 s.c ++ le32 s.d

/-- The sixteen lowercase hexadecimal digits. -/
def hexDigits : List Char :=
  ['0', '1', '2', '3', '4', '5', '6', '7', '8', '9', 'a', 'b', 'c', 'd', 'e', 'f']

/-- The digit of a value below 16. -/
def hexDigit (n : Nat) : Char := hexDigits.getD n '0'

/-- Two digits per byte, high half first. -/
def hexChars : List Nat → List Char
  | [] => []
  | b :: bs => hexDigit (b / 16) :: hexDigit (b % 16) :: hexChars bs

/-- Go `fmt.Sprintf("%x", bytes)` on a byte array. -/
def SprintfHex (bs : List Nat) : String := String.mk (hexChars bs)

/-- Go `os.PathSeparator`. -/
def PathSeparator : Char := '/'

/-- Go `strings.TrimRight`: drop the trailing characters that occur in `cutset`. -/
def TrimRight (s cutset : String) : String :=
  String.mk (s.data.reverse.dropWhile (fun ch => cutset.data.contains ch)).reverse

/-- The driver: its base path (the lock and the embedded interface carry no data). -/
structure LocalFileDriver where
  path : String

/-- Go `NewLocalFileDriver`: the base path is made to end in exactly one separator.
The directory it creates holds no journal and is not part of the file model. -/
def NewLocalFileDriver (path : String) : LocalFileDriver :=
  ⟨TrimRight path (String.singleton PathSeparator) ++ String.singleton PathSeparator⟩

/-- The local variable `filename` of `filePathForKey`. -/
def fileName (key : String) : String :=
  SprintfHex (Sum (bytesOfString (EncodeToString (bytesOfString key))))

/-- Go `(*LocalFileDriver).filePathForKey`. -/
def LocalFileDriver.filePathForKey (c : LocalFileDriver) (key : String) : String :=
  c.path ++ fileName key

/-! ## JSON documents and the values they decode to -/

/-- A JSON document in abstract form; `num mant exp10` is the literal `mant * 10 ^ exp10`. -/
inductive Json
  | null
  | bool (b : Bool)
  | num (mant : Int) (exp10 : Int)
  | str (s : String)
  | arr (elems : List Json)
  | obj (fields : List (String × Json))

/-- A finite `float64`: the value `mant * 2 ^ exp`, negated when `neg`. -/
structure Float64 where
  neg : Bool
  mant : Nat
  exp : Int
deriving DecidableEq

/-- Floor of the binary logarithm, by halving at most `fuel` times. -/
def log2Fuel : Nat → Nat → Nat
  | 0, _ => 0
  | fuel + 1, n => if n < 2 then 0 else log2Fuel fuel (n / 2) + 1

/-- Floor of the binary logarithm (0 at 0). -/
def log2 (n : Nat) : Nat := log2Fuel n n

/-- Whether `2 ^ e ≤ a / b`. -/
def geTwoPow (a b : Nat) (e : Int) : Bool :=
  if 0 ≤ e then decide (b * 2 ^ e.toNat ≤ a) else decide (b ≤ a * 2 ^ (-e).toNat)

/-- The positive ratio `a / b` rounded to the nearest `float64` (ties to even): the
significand, at most 53 bits, and the binary exponent it is scaled by, not below
that of the subnormals. -/
def roundRatio (a b : Nat) : Nat × Int :=
  let e0 : Int := (log2 a : Int) - (log2 b : Int)
  let e : Int := if geTwoPow a b e0 then e0 else e0 - 1
  let u : Int := max (e - 52) (-1074)
  let n := a * 2 ^ (-u).toNat
  let d := b * 2 ^ u.toNat
  let q := n / d
  let r := n % d
  if d < 2 * r ∨ (2 * r = d ∧ q % 2 = 1) then (q + 1, u) else (q, u)

/-- Go `strconv.ParseFloat(s, 64)` on the literal `mant * 10 ^ exp10`: the nearest
`float64`, or `none` (a range error) when that is infinite. -/
def ParseFloat (mant exp10 : Int) : Option Float64 :=
  if mant = 0 then some ⟨false, 0, 0⟩
  else
    let r := roundRatio (mant.natAbs * 10 ^ exp10.toNat) (10 ^ (-exp10).toNat)
    if 1024 ≤ (log2 r.1 : Int) + r.2 then none else some ⟨decide (mant < 0), r.1, r.2⟩

/-- Go conversion `int64(f)`: truncation toward zero; a value outside the range
of `int64` gives the smallest `int64`, as the conversion does on amd64. -/
def int64OfFloat64 (f : Float64) : Int :=
  let t : Nat := f.mant * 2 ^ f.exp.toNat / 2 ^ (-f.exp).toNat
  let v : Int := if f.neg then -(t : Int) else (t : Int)
  if -(2 : Int) ^ 63 ≤ v ∧ v < (2 : Int) ^ 63 then v else -(2 : Int) ^ 63

/-- A 64-bit signed integer computed with wrap-around. -/
def wrapInt64 (x : Int) : Int := (x + 2 ^ 63) % 2 ^ 64 - 2 ^ 63

/-- The dynamic values an `interface{}` holds in this program: what the JSON
decoder stores, and byte slices. -/
inductive Iface
  | nil
  | bool (b : Bool)
  | float64 (f : Float64)
  | string (s : String)
  | bytes (b : List Nat)
  | slice (elems : List Iface)
  | map (m : List (String × Iface))

/-- Type assertion `x.(string)`. -/
def Iface.asString : Iface → Option String
  | .string s => some s
  | _ => none

/-- Type assertion `x.(float64)`. -/
def Iface.asFloat64 : Iface → Option Float64
  | .float64 f => some f
  | _ => none

/-- Type assertion `x.([]byte)`. -/
def Iface.asBytes : Iface → Option (List Nat)
  | .bytes b => some b
  | _ => none

/-- A Go `map[string]interface{}`: the latest store of a key comes first. -/
abbrev GoMap := List (String × Iface)

/-- Go map index `m[k]`: the stored value, or the nil interface. -/
def mapIndex (m : GoMap) (k : String) : Iface :=
  match m.lookup k with
  | some v => v
  | none => .nil

mutual
/-- Decoding a document into an `interface{}`. -/
def decodeIface : Json → Except Error Iface
  | .null => .ok .nil
  | .bool b => .ok (.bool b)
  | .num m e =>
    match ParseFloat m e with
    | some f => .ok (.float64 f)
    | none => .error (.numberRange m e)
  | .str s => .ok (.string s)
  | .arr xs =>
    match decodeElems xs with
    | .ok vs => .ok (.slice vs)
    | .error err => .error err
  | .obj fs =>
    match decodeFields fs [] with
    | .ok m => .ok (.map m)
    | .error err => .error err
/-- Decoding the elements of an array. -/
def decodeElems : List Json → Except Error (List Iface)
  | [] => .ok []
  | x :: xs =>
    match decodeIface x with
    | .error err => .error err
    | .ok v =>
      match decodeElems xs with
      | .error err => .error err
      | .ok vs => .ok (v :: vs)
/-- Decoding the fields of an object into the map `m`, a repeated key being stored again. -/
def decodeFields : List (String × Json) → GoMap → Except Error GoMap
  | [], m => .ok m
  | (k, x) :: rest, m =>
    match decodeIface x with
    | .error err => .error err
    | .ok v => decodeFields rest ((k, v) :: m)
end

/-- One unit of a journal file as the stream decoder meets it: a complete JSON
document, or bytes at which `Decode` fails with the given error (text that is
not JSON, a truncated document, a failed read). -/
inductive Chunk
  | doc (j : Json)
  | garbage (err : Error)

/-- Go `dec.Decode(&cacheData)` on the next unit of the stream, `cacheData` being a
nil `map[string]interface{}`: null leaves the map nil, a document of another
kind than an object is a type error naming that kind. -/
def Decode : Chunk → Except Error GoMap
  | .garbage err => .error err
  | .doc .null => .ok []
  | .doc (.obj fs) => decodeFields fs []
  | .doc (.bool _) => .error (.unmarshalType "bool")
  | .doc (.num _ _) => .error (.unmarshalType "number")
  | .doc (.str _) => .error (.unmarshalType "string")
  | .doc (.arr _) => .error (.unmarshalType "array")

/-! ## The file system -/

/-- What a path names: nothing, a regular file, or an entry on which every
system call fails with an error other than "does not exist". -/
inductive Node
  | absent
  | file (content : List Chunk)
  | denied (errno : Nat)

/-- The state of the file system. -/
abbrev FS := String → Node

/-- The file system with the node at `path` replaced by `n`. -/
def FS.write (fs : FS) (path : String) (n : Node) : FS :=
  fun p => if p = path then n else fs p

/-- The records of the journal at `path` (none when there is no file). -/
def FS.journal (fs : FS) (path : String) : List Chunk :=
  match fs path with
  | .file content => content
  | _ => []

/-- Go `os.Open`. -/
def osOpen (fs : FS) (path : String) : Except Error (List Chunk) :=
  match fs path with
  | .absent => .error .notExist
  | .file content => .ok content
  | .denied errno => .error (.os errno)

/-- Go `os.OpenFile(path, os.O_RDWR|os.O_CREATE|os.O_APPEND, 0666)`: a missing file is created empty. -/
def osOpenFile (fs : FS) (path : String) : Except Error (FS × List Chunk) :=
  match fs path with
  | .absent => .ok (fs.write path (.file []), [])
  | .file content => .ok (fs, content)
  | .denied errno => .error (.os errno)

/-- Go `os.Stat`, its error only. -/
def osStat (fs : FS) (path : String) : Option Error :=
  match fs path with
  | .absent => some .notExist
  | .file _ => none
  | .denied errno => some (.os errno)

/-- Go `os.Remove`. -/
def osRemove (fs : FS) (path : String) : FS × Option Error :=
  match fs path with
  | .absent => (fs, some .notExist)
  | .file _ => (fs.write path .absent, none)
  | .denied errno => (fs, some (.os errno))

/-! ## The driver's operations -/

/-- Go `cache.CacheItem`. -/
structure CacheItem where
  Key : String
  Value : Iface
  Expiration : Int
  CreatedAt : Int

/-- The `value interface{}` argument of `Set`: nil, a value the JSON encoder
renders as the document `j`, or a non-nil value it rejects with an error. -/
inductive Value
  | nil
  | data (j : Json)
  | unsupported (err : Error)

/-- The JSON line of the map `cacheData` that `Set` builds, the value being
rendered as the document `j`; the encoder writes the keys of a map in sorted order. -/
def record (key : String) (j : Json) (expiration createdAt : Int) : Chunk :=
  .doc (.obj [("created_at", .num createdAt 0), ("expiration", .num expiration 0),
    ("key", .str key), ("value", j)])

/-- Go `enc.Encode(cacheData)` for the map that `Set` builds: the line written, or
the error of a value that cannot be encoded (nothing is written then). -/
def Encode (key : String) (value : Value) (expiration createdAt : Int) : Except Error Chunk :=
  match value with
  | .data j => .ok (record key j expiration createdAt)
  | .nil => .ok (record key .null expiration createdAt)
  | .unsupported err => .error err

/-- The error of the three format checks of `Get`. -/
def invalidFormat : Error := .errorf "invalid cache data format"

/-- The loop of `Get` over the records still to be decoded. `unmarshal` is
`json.Unmarshal` into a `CacheItem`. -/
def scan (unmarshal : List Nat → Except Error CacheItem) (key : String) (now : Int) :
    List Chunk → Option CacheItem × Option Error
  | [] => (none, none)
  | ch :: rest =>
    match Decode ch with
    | .error err => (none, some err)
    | .ok cacheData =>
      match (mapIndex cacheData "key").asString with
      | none => (none, some invalidFormat)
      | some cacheKey =>
        if cacheKey = key then
          match (mapIndex cacheData "expiration").asFloat64 with
          | none => (none, some invalidFormat)
          | some expiration =>
            if int64OfFloat64 expiration > now then
              match (mapIndex cacheData "value").asBytes with
              | none => (none, some invalidFormat)
              | some cacheValue =>
                match unmarshal cacheValue with
                | .error err => (none, some err)
                | .ok item => (some item, none)
            else scan unmarshal key now rest
        else scan unmarshal key now rest

/-- Go `(*LocalFileDriver).Get`, at clock reading `now`: the item and the error. -/
def LocalFileDriver.Get (c : LocalFileDriver) (unmarshal : List Nat → Except Error CacheItem)
    (fs : FS) (key : String) (now : Int) : Option CacheItem × Option Error :=
  match osOpen fs (c.filePathForKey key) with
  | .error err => if IsNotExist (some err) then (none, none) else (none, some err)
  | .ok content => scan unmarshal key now content

/-- Go `(*LocalFileDriver).Set`: the new state and the error. `now` and `createdAt`
are the two readings of the clock; `UnixNano` of the expiration instant is
computed in `int64`. -/
def LocalFileDriver.Set (c : LocalFileDriver) (fs : FS) (key : String) (value : Value)
    (expiration : Int) (now createdAt : Int) : FS × Option Error :=
  match value with
  | .nil => (fs, none)
  | value =>
    match osOpenFile fs (c.filePathForKey key) with
    | .error err => (fs, some err)
    | .ok (fs1, content) =>
      match Encode key value (wrapInt64 (now + expiration)) createdAt with
      | .error err => (fs1, some err)
      | .ok line => (fs1.write (c.filePathForKey key) (.file (content ++ [line])), none)

/-- Go `(*LocalFileDriver).Delete`: the new state and the error. -/
def LocalFileDriver.Delete (c : LocalFileDriver) (fs : FS) (key : String) : FS × Option Error :=
  if IsNotExist (osStat fs (c.filePathForKey key)) then (fs, none)
  else osRemove fs (c.filePathForKey key)

/-- The arguments of one call of `Set` on a fixed key, with its clock readings. -/
structure SetCall where
  value : Value
  expiration : Int
  now : Int
  createdAt : Int

/-- The state after a sequence of calls of `Set` on `key`. -/
def runSets (c : LocalFileDriver) (key : String) : FS → List SetCall → FS
  | fs, [] => fs
  | fs, s :: rest => runSets c key (c.Set fs key s.value s.expiration s.now s.createdAt).1 rest

/-- Every call of the sequence has a non-nil value and returns no error. -/
def setsSucceed (c : LocalFileDriver) (key : String) : FS → List SetCall → Prop
  | _, [] => True
  | fs, s :: rest =>
    s.value ≠ .nil ∧ (c.Set fs key s.value s.expiration s.now s.createdAt).2 = none ∧
      setsSucceed c key (c.Set fs key s.value s.expiration s.now s.createdAt).1 rest

/-- The file system with no file at all. -/
def emptyFS : FS := fun _ => .absent

/-! ## How `Get` treats one record -/

/-- The record is a valid match for `key` at `now`: it decodes, its key is the
string `key`, its expiration is a number and `int64` of it exceeds `now`. -/
def validMatch (key : String) (now : Int) (ch : Chunk) : Bool :=
  match Decode ch with
  | .error _ => false
  | .ok m =>
    match (mapIndex m "key").asString with
    | none => false
    | some k =>
      match (mapIndex m "expiration").asFloat64 with
      | none => false
      | some e => decide (k = key) && decide (int64OfFloat64 e > now)

/-- The record is passed by: it decodes with a string key, and either the key is
another one, or the expiration is a number and `int64` of it is at most `now`. -/
def steppedOver (key : String) (now : Int) (ch : Chunk) : Bool :=
  match Decode ch with
  | .error _ => false
  | .ok m =>
    match (mapIndex m "key").asString with
    | none => false
    | some k =>
      if k = key then
        match (mapIndex m "expiration").asFloat64 with
        | none => false
        | some e => decide (int64OfFloat64 e ≤ now)
      else true

/-- The record fails a check whatever the clock: it does not decode, or its key
is missing or no string, or its key is `key` and its expiration is missing or no
number. -/
def broken (key : String) (ch : Chunk) : Bool :=
  match Decode ch with
  | .error _ => true
  | .ok m =>
    match (mapIndex m "key").asString with
    | none => true
    | some k =>
      if k = key then
        match (mapIndex m "expiration").asFloat64 with
        | none => true
        | some _ => false
      else false

/-- The error `Get` returns at a broken record. -/
def brokenError (ch : Chunk) : Error :=
  match Decode ch with
  | .error err => err
  | .ok _ => invalidFormat

/-- The driver of the repository's test. -/
def testDriver : LocalFileDriver := NewLocalFileDriver "storage/test/"

/-- A record of another key whose expiration is a string and whose value is missing. -/
def strayRecord : Chunk :=
  .doc (.obj [("key", .str "other"), ("expiration", .str "soon")])

/-! ## The key mapper -/

theorem hexChars_length (bs : List Nat) : (hexChars bs).length = 2 * bs.length := by
  induction bs with
  | nil => rfl
  | cons b bs ih => simp [hexChars, ih]; omega

theorem Sum_length (data : List Nat) : (Sum data).length = 16 := by
  simp [Sum, le32]

theorem Sum_lt (data : List Nat) : ∀ b ∈ Sum data, b < 256 := by
  intro b hb
  simp only [Sum, le32, List.mem_append, List.mem_cons, List.mem_singleton,
    List.not_mem_nil, or_false] at hb
  omega

theorem hexDigit_mem (n : Nat) (h : n < 16) : hexDigit n ∈ hexDigits := by
  interval_cases n <;> decide

theorem hexChars_mem (bs : List Nat) (h : ∀ b ∈ bs, b < 256) :
    ∀ ch ∈ hexChars bs, ch ∈ hexDigits := by
  induction bs with
  | nil => intro ch hch; simp [hexChars] at hch
  | cons b bs ih =>
    intro ch hch
    have hb : b < 256 := h b (List.mem_cons_self b bs)
    simp only [hexChars, List.mem_cons] at hch
    rcases hch with rfl | rfl | hch
    · exact hexDigit_mem _ (by omega)
    · exact hexDigit_mem _ (by omega)
    · exact ih (fun x hx => h x (List.mem_cons_of_mem b hx)) ch hch

set_option maxRecDepth 100000 in
/-- The digest of the empty message, RFC 1321. -/
theorem Sum_nil : SprintfHex (Sum []) = "d41d8cd98f00b204e9800998ecf8427e" := by
  decide

set_option maxRecDepth 100000 in
/-- The digest of "abc", RFC 1321. -/
theorem Sum_abc : SprintfHex (Sum (bytesOfString "abc")) = "900150983cd24fb0d6963f7d28e17f72" := by
  decide

set_option maxRecDepth 100000 in
/-- A two-block message of RFC 1321. -/
theorem Sum_digits :
    SprintfHex (Sum (bytesOfString
      "12345678901234567890123456789012345678901234567890123456789012345678901234567890"))
      = "57edf4a22be3c955ac49da2e2107b67a" := by
  decide

set_option maxRecDepth 100000 in
/-- The journal of the key "test" of the repository's test. -/
theorem filePathForKey_test :
    testDriver.filePathForKey "test" = "storage/test/5fa62ae6176f3746142503a6ebe96cb3" := by
  decide

/-- C9: the path of a key is the base path of the driver followed by the lowercase
hexadecimal MD5 digest of the standard base64 encoding of the key; the file name
has 32 characters, all of them hexadecimal digits, none of them the path
separator, and depends on the key only; a constructed driver's base path is the
given one with its trailing separators replaced by one. -/
theorem C9_filePathForKey (c : LocalFileDriver) (key : String) :
    c.filePathForKey key = c.path ++ fileName key
    ∧ fileName key = SprintfHex (Sum (bytesOfString (EncodeToString (bytesOfString key))))
    ∧ (fileName key).length = 32
    ∧ (∀ ch ∈ (fileName key).data, ch ∈ hexDigits)
    ∧ PathSeparator ∉ (fileName key).data
    ∧ (∀ p : String, (NewLocalFileDriver p).filePathForKey key
        = TrimRight p "/" ++ "/" ++ fileName key) := by
  have hmem : ∀ ch ∈ (fileName key).data, ch ∈ hexDigits := by
    intro ch hch
    exact hexChars_mem _ (Sum_lt _) ch hch
  refine ⟨rfl, rfl, ?_, hmem, ?_, fun p => rfl⟩
  · show (hexChars (Sum _)).length = 32
    rw [hexChars_length, Sum_length]
  · intro hsep
    have := hmem _ hsep
    revert this
    decide

set_option maxRecDepth 100000 in
/-- C9 at the key "test" of the repository's test: the path computed, with the
digest of `md5sum` on the base64 text `dGVzdA==`, and the shape of its file name. -/
theorem C9_filePathForKey_witness :
    EncodeToString (bytesOfString "test") = "dGVzdA=="
    ∧ testDriver.filePathForKey "test" = "storage/test/5fa62ae6176f3746142503a6ebe96cb3"
    ∧ (fileName "test").length = 32
    ∧ PathSeparator ∉ (fileName "test").data :=
  ⟨by decide, by decide, (C9_filePathForKey testDriver "test").2.2.1,
    (C9_filePathForKey testDriver "test").2.2.2.2.1⟩

/-! ## The file system and the three operations -/

theorem FS.write_same (fs : FS) (path : String) (n : Node) : (fs.write path n) path = n := by
  simp [FS.write]

theorem FS.write_other (fs : FS) (path p : String) (n : Node) (h : p ≠ path) :
    (fs.write path n) p = fs p := by
  simp [FS.write, h]

theorem Get_of_file (c : LocalFileDriver) (unmarshal : List Nat → Except Error CacheItem)
    (fs : FS) (key : String) (now : Int) (content : List Chunk)
    (h : fs (c.filePathForKey key) = .file content) :
    c.Get unmarshal fs key now = scan unmarshal key now content := by
  simp [LocalFileDriver.Get, osOpen, h]

theorem Set_ok (c : LocalFileDriver) (fs : FS) (key : String) (value : Value)
    (expiration now createdAt : Int) (hv : value ≠ .nil)
    (h : (c.Set fs key value expiration now createdAt).2 = none) :
    ∃ j, value = .data j ∧
      (c.Set fs key value expiration now createdAt).1
        = fs.write (c.filePathForKey key)
            (.file (fs.journal (c.filePathForKey key)
              ++ [record key j (wrapInt64 (now + expiration)) createdAt])) := by
  cases value with
  | nil => exact absurd rfl hv
  | unsupported err =>
    cases hfs : fs (c.filePathForKey key) <;>
      simp [LocalFileDriver.Set, osOpenFile, hfs, Encode] at h
  | data j =>
    refine ⟨j, rfl, ?_⟩
    cases hfs : fs (c.filePathForKey key) with
    | absent =>
      simp only [LocalFileDriver.Set, osOpenFile, hfs, Encode, FS.journal, record]
      funext p
      by_cases hp : p = c.filePathForKey key <;> simp [FS.write, hp]
    | file content =>
      simp [LocalFileDriver.Set, osOpenFile, hfs, Encode, FS.journal, record]
    | denied n =>
      simp [LocalFileDriver.Set, osOpenFile, hfs] at h

theorem journal_after_Set (c : LocalFileDriver) (fs : FS) (key : String) (value : Value)
    (expiration now createdAt : Int) (hv : value ≠ .nil)
    (h : (c.Set fs key value expiration now createdAt).2 = none) :
    ((c.Set fs key value expiration now createdAt).1.journal (c.filePathForKey key)).length
      = (fs.journal (c.filePathForKey key)).length + 1 := by
  obtain ⟨j, -, hfs⟩ := Set_ok c fs key value expiration now createdAt hv h
  rw [hfs]
  simp [FS.journal, FS.write_same]

theorem journal_after_runSets (c : LocalFileDriver) (key : String) (calls : List SetCall) :
    ∀ fs : FS, setsSucceed c key fs calls →
      ((runSets c key fs calls).journal (c.filePathForKey key)).length
        = (fs.journal (c.filePathForKey key)).length + calls.length := by
  induction calls with
  | nil => intro fs _; rfl
  | cons s rest ih =>
    intro fs h
    obtain ⟨hv, hs, hrest⟩ := h
    have h1 := journal_after_Set c fs key s.value s.expiration s.now s.createdAt hv hs
    have h2 := ih _ hrest
    simp only [runSets, List.length_cons]
    omega

theorem wrapInt64_of_range (x : Int) (h1 : -(2 : Int) ^ 63 ≤ x) (h2 : x < (2 : Int) ^ 63) :
    wrapInt64 x = x := by
  unfold wrapInt64
  have h3 : (x + 2 ^ 63) % 2 ^ 64 = x + 2 ^ 63 :=
    Int.emod_eq_of_lt (by omega) (by omega)
  omega

theorem Get_of_absent (c : LocalFileDriver) (unmarshal : List Nat → Except Error CacheItem)
    (fs : FS) (key : String) (now : Int) (h : fs (c.filePathForKey key) = .absent) :
    c.Get unmarshal fs key now = (none, none) := by
  simp [LocalFileDriver.Get, osOpen, h, IsNotExist]

/-- C3: when no file exists at the path of the key, `Get` returns no item and no error. -/
theorem C3_get_absent (c : LocalFileDriver) (unmarshal : List Nat → Except Error CacheItem)
    (fs : FS) (key : String) (now : Int) (h : fs (c.filePathForKey key) = .absent) :
    c.Get unmarshal fs key now = (none, none) :=
  Get_of_absent c unmarshal fs key now h

/-- C3 at the empty file system and the key of the repository's test. -/
theorem C3_get_absent_witness :
    emptyFS (testDriver.filePathForKey "test") = .absent ∧
      ∀ unmarshal now, testDriver.Get unmarshal emptyFS "test" now = (none, none) :=
  ⟨rfl, fun unmarshal now => C3_get_absent testDriver unmarshal emptyFS "test" now rfl⟩

/-- C6: `Set` with a nil value returns no error and the state it was given, so that
every later `Get` returns what it returned before. -/
theorem C6_set_nil (c : LocalFileDriver) (unmarshal : List Nat → Except Error CacheItem)
    (fs : FS) (key : String) (expiration now createdAt : Int) (key2 : String) (now2 : Int) :
    c.Set fs key .nil expiration now createdAt = (fs, none)
    ∧ c.Get unmarshal (c.Set fs key .nil expiration now createdAt).1 key2 now2
        = c.Get unmarshal fs key2 now2 :=
  ⟨rfl, rfl⟩

/-- C5: after any sequence of calls of `Set` on a key, a `Delete` of the key that
returns no error leaves no file at its path, and `Get` then returns no item and
no error; `Delete` of a key with no file returns no error and the same state. -/
theorem C5_delete (c : LocalFileDriver) (unmarshal : List Nat → Except Error CacheItem)
    (fs0 : FS) (key : String) (calls : List SetCall) (now : Int) :
    ((c.Delete (runSets c key fs0 calls) key).2 = none →
      (c.Delete (runSets c key fs0 calls) key).1 (c.filePathForKey key) = .absent
      ∧ c.Get unmarshal (c.Delete (runSets c key fs0 calls) key).1 key now = (none, none))
    ∧ (fs0 (c.filePathForKey key) = .absent → c.Delete fs0 key = (fs0, none)) := by
  constructor
  · intro h
    have habs : (c.Delete (runSets c key fs0 calls) key).1 (c.filePathForKey key) = .absent := by
      revert h
      generalize runSets c key fs0 calls = fs
      intro h
      cases hfs : fs (c.filePathForKey key) with
      | absent => simp [LocalFileDriver.Delete, osStat, hfs, IsNotExist]
      | file content =>
        simp [LocalFileDriver.Delete, osStat, osRemove, hfs, IsNotExist, FS.write_same]
      | denied n =>
        simp [LocalFileDriver.Delete, osStat, osRemove, hfs, IsNotExist] at h
    exact ⟨habs, Get_of_absent c unmarshal _ key now habs⟩
  · intro h
    simp [LocalFileDriver.Delete, osStat, h, IsNotExist]

set_option maxRecDepth 100000 in
/-- C5 at the key of the repository's test, after two calls of `Set` and with no call at all. -/
theorem C5_delete_witness :
    (testDriver.Delete (runSets testDriver "test" emptyFS
        [⟨.data (.str "A"), 3600000000000, 1700000000000000000, 1700000000000000000⟩,
         ⟨.data (.str "B"), 3600000000000, 1700000000000001000, 1700000000000001000⟩])
        "test").2 = none
    ∧ (∀ unmarshal now, testDriver.Get unmarshal (testDriver.Delete (runSets testDriver "test" emptyFS
        [⟨.data (.str "A"), 3600000000000, 1700000000000000000, 1700000000000000000⟩,
         ⟨.data (.str "B"), 3600000000000, 1700000000000001000, 1700000000000001000⟩])
        "test").1 "test" now = (none, none))
    ∧ testDriver.Delete emptyFS "test" = (emptyFS, none) :=
  ⟨by rfl,
   fun unmarshal now => ((C5_delete testDriver unmarshal emptyFS "test" _ now).1 (by rfl)).2,
   (C5_delete testDriver (fun _ => .error .notExist) emptyFS "test" [] 0).2 rfl⟩

/-- A call of `Set` with a non-nil value that returns no error leaves at the path
of the key the former journal (empty when there was no file) followed by one
record holding the key, the value, the second clock reading and, as its
expiration, the first clock reading plus the duration computed in `int64`, which
is that sum whenever the sum fits in 64 bits; every other path is unchanged;
and a sequence of such calls adds as many records as it has calls. -/
theorem Set_appends (c : LocalFileDriver) (key : String) :
    (∀ (fs : FS) (value : Value) (expiration now createdAt : Int),
      value ≠ .nil → (c.Set fs key value expiration now createdAt).2 = none →
      ∃ j, value = .data j
        ∧ (c.Set fs key value expiration now createdAt).1 (c.filePathForKey key)
            = .file (fs.journal (c.filePathForKey key)
                ++ [record key j (wrapInt64 (now + expiration)) createdAt])
        ∧ (∀ p, p ≠ c.filePathForKey key →
            (c.Set fs key value expiration now createdAt).1 p = fs p)
        ∧ (-(2 : Int) ^ 63 ≤ now + expiration → now + expiration < (2 : Int) ^ 63 →
            wrapInt64 (now + expiration) = now + expiration))
    ∧ (∀ (fs : FS) (calls : List SetCall), setsSucceed c key fs calls →
        ((runSets c key fs calls).journal (c.filePathForKey key)).length
          = (fs.journal (c.filePathForKey key)).length + calls.length) := by
  refine ⟨?_, fun fs calls h => journal_after_runSets c key calls fs h⟩
  intro fs value expiration now createdAt hv h
  obtain ⟨j, hj, hfs⟩ := Set_ok c fs key value expiration now createdAt hv h
  refine ⟨j, hj, ?_, ?_, wrapInt64_of_range _⟩
  · rw [hfs, FS.write_same]
  · intro p hp
    rw [hfs, FS.write_other _ _ _ _ hp]

set_option maxRecDepth 100000 in
/-- The appending of `Set` at the call of the repository's test, and at two calls in a row. -/
theorem Set_appends_example :
    (∃ j, Value.data (.str "test") = .data j
      ∧ (testDriver.Set emptyFS "test" (.data (.str "test")) 100000 1700000000000000000
            1700000000000000005).1 (testDriver.filePathForKey "test")
          = .file (emptyFS.journal (testDriver.filePathForKey "test")
              ++ [record "test" j (wrapInt64 (1700000000000000000 + 100000)) 1700000000000000005])
      ∧ (∀ p, p ≠ testDriver.filePathForKey "test" →
          (testDriver.Set emptyFS "test" (.data (.str "test")) 100000 1700000000000000000
            1700000000000000005).1 p = emptyFS p)
      ∧ (-(2 : Int) ^ 63 ≤ 1700000000000000000 + 100000 →
          1700000000000000000 + 100000 < (2 : Int) ^ 63 →
          wrapInt64 (1700000000000000000 + 100000) = 1700000000000000000 + 100000))
    ∧ ((runSets testDriver "test" emptyFS
          [⟨.data (.str "A"), 3600000000000, 1700000000000000000, 1700000000000000000⟩,
           ⟨.data (.str "B"), 3600000000000, 1700000000000001000, 1700000000000001000⟩]).journal
          (testDriver.filePathForKey "test")).length
        = (emptyFS.journal (testDriver.filePathForKey "test")).length + 2 :=
  ⟨(Set_appends testDriver "test").1 emptyFS (.data (.str "test")) 100000 1700000000000000000
      1700000000000000005 (fun h => Value.noConfusion h) rfl,
   (Set_appends testDriver "test").2 emptyFS _
      ⟨fun h => Value.noConfusion h, by rfl, fun h => Value.noConfusion h, by rfl, trivial⟩⟩

set_option maxRecDepth 100000 in
/-- C7: `Set(k, v, ttl)` with the largest duration, 9223372036854775807, at clock
reading 1700000000000000000 on a state with no journal returns no error and
appends one record, whose expiration is -7523372036854775809 and not the sum
10923372036854775807 of the reading and the duration: `UnixNano` wraps in
`int64`. The record is expired from the start: `Get(k)` at the same clock
reading returns no item and no error. -/
theorem C7_set_expiration_wraps :
    (testDriver.Set emptyFS "k" (.data (.str "v")) 9223372036854775807 1700000000000000000
        1700000000000000000).2 = none
    ∧ (testDriver.Set emptyFS "k" (.data (.str "v")) 9223372036854775807 1700000000000000000
        1700000000000000000).1.journal (testDriver.filePathForKey "k")
        = [record "k" (.str "v") (-7523372036854775809) 1700000000000000000]
    ∧ (1700000000000000000 + 9223372036854775807 : Int) = 10923372036854775807
    ∧ (-7523372036854775809 : Int) ≠ 1700000000000000000 + 9223372036854775807
    ∧ (∀ unmarshal, testDriver.Get unmarshal
        (testDriver.Set emptyFS "k" (.data (.str "v")) 9223372036854775807 1700000000000000000
          1700000000000000000).1 "k" 1700000000000000000
        = (none, none)) :=
  ⟨by rfl, by rfl, by decide, by decide, fun _ => by rfl⟩

/-! ## The scan of `Get` -/

theorem decodeIface_asBytes (j : Json) (v : Iface) (h : decodeIface j = .ok v) :
    v.asBytes = none := by
  cases j with
  | null => simp only [decodeIface, Except.ok.injEq] at h; subst h; rfl
  | bool b => simp only [decodeIface, Except.ok.injEq] at h; subst h; rfl
  | num m e =>
    simp only [decodeIface] at h
    split at h
    · simp only [Except.ok.injEq] at h; subst h; rfl
    · cases h
  | str t => simp only [decodeIface, Except.ok.injEq] at h; subst h; rfl
  | arr xs =>
    simp only [decodeIface] at h
    split at h
    · simp only [Except.ok.injEq] at h; subst h; rfl
    · cases h
  | obj fs =>
    simp only [decodeIface] at h
    split at h
    · simp only [Except.ok.injEq] at h; subst h; rfl
    · cases h

theorem decodeFields_asBytes (fs : List (String × Json)) :
    ∀ (m m2 : GoMap), (∀ p ∈ m, p.2.asBytes = none) → decodeFields fs m = .ok m2 →
      ∀ p ∈ m2, p.2.asBytes = none := by
  induction fs with
  | nil =>
    intro m m2 hm h
    simp only [decodeFields, Except.ok.injEq] at h
    subst h
    exact hm
  | cons f rest ih =>
    intro m m2 hm h
    obtain ⟨k, x⟩ := f
    simp only [decodeFields] at h
    split at h
    · cases h
    · rename_i v hv
      refine ih ((k, v) :: m) m2 ?_ h
      intro p hp
      rcases List.mem_cons.mp hp with rfl | hp
      · exact decodeIface_asBytes x v hv
      · exact hm p hp

theorem mapIndex_asBytes (m : GoMap) (k : String) (hm : ∀ p ∈ m, p.2.asBytes = none) :
    (mapIndex m k).asBytes = none := by
  induction m with
  | nil => rfl
  | cons p rest ih =>
    obtain ⟨k2, v⟩ := p
    by_cases hk : k = k2
    · subst hk
      have : mapIndex ((k, v) :: rest) k = v := by simp [mapIndex, List.lookup]
      rw [this]
      exact hm (k, v) (List.mem_cons_self _ _)
    · have hne : (k == k2) = false := by simpa using hk
      have : mapIndex ((k2, v) :: rest) k = mapIndex rest k := by
        simp [mapIndex, List.lookup, hne]
      rw [this]
      exact ih (fun p hp => hm p (List.mem_cons_of_mem _ hp))

theorem Decode_asBytes (ch : Chunk) (m : GoMap) (k : String) (h : Decode ch = .ok m) :
    (mapIndex m k).asBytes = none := by
  apply mapIndex_asBytes
  cases ch with
  | garbage err => cases h
  | doc j =>
    cases j with
    | null =>
      simp only [Decode, Except.ok.injEq] at h
      subst h
      intro p hp
      cases hp
    | obj fs =>
      simp only [Decode] at h
      exact decodeFields_asBytes fs [] m (fun p hp => by cases hp) h
    | bool b => cases h
    | num a b => cases h
    | str t => cases h
    | arr xs => cases h

theorem scan_cons (unmarshal : List Nat → Except Error CacheItem) (key : String) (now : Int)
    (ch : Chunk) (rest : List Chunk) :
    scan unmarshal key now (ch :: rest) =
      match Decode ch with
      | .error err => (none, some err)
      | .ok cacheData =>
        match (mapIndex cacheData "key").asString with
        | none => (none, some invalidFormat)
        | some cacheKey =>
          if cacheKey = key then
            match (mapIndex cacheData "expiration").asFloat64 with
            | none => (none, some invalidFormat)
            | some expiration =>
              if int64OfFloat64 expiration > now then (none, some invalidFormat)
              else scan unmarshal key now rest
          else scan unmarshal key now rest := by
  rw [scan]
  cases hd : Decode ch with
  | error err => rfl
  | ok m =>
    simp only [Decode_asBytes ch m "value" hd]

theorem scan_item (unmarshal : List Nat → Except Error CacheItem) (key : String) (now : Int)
    (content : List Chunk) : (scan unmarshal key now content).1 = none := by
  induction content with
  | nil => rfl
  | cons ch rest ih =>
    rw [scan_cons]
    repeat' split
    all_goals first | rfl | exact ih

theorem scan_steppedOver (unmarshal : List Nat → Except Error CacheItem) (key : String)
    (now : Int) (ch : Chunk) (rest : List Chunk) (h : steppedOver key now ch = true) :
    scan unmarshal key now (ch :: rest) = scan unmarshal key now rest := by
  rw [scan_cons]
  unfold steppedOver at h
  repeat' split at h
  all_goals simp_all

theorem scan_validMatch (unmarshal : List Nat → Except Error CacheItem) (key : String)
    (now : Int) (ch : Chunk) (rest : List Chunk) (h : validMatch key now ch = true) :
    scan unmarshal key now (ch :: rest) = (none, some invalidFormat) := by
  rw [scan_cons]
  unfold validMatch at h
  repeat' split at h
  all_goals simp_all

theorem scan_broken (unmarshal : List Nat → Except Error CacheItem) (key : String)
    (now : Int) (ch : Chunk) (rest : List Chunk) (h : broken key ch = true) :
    scan unmarshal key now (ch :: rest) = (none, some (brokenError ch)) := by
  rw [scan_cons]
  unfold broken at h
  unfold brokenError
  repeat' split at h
  all_goals simp_all

theorem record_cases (key : String) (now : Int) (ch : Chunk) :
    validMatch key now ch = true ∨ steppedOver key now ch = true ∨ broken key ch = true := by
  unfold validMatch steppedOver broken
  repeat' split
  all_goals simp_all
  omega

theorem scan_steppedOver_all (unmarshal : List Nat → Except Error CacheItem) (key : String)
    (now : Int) (front rest : List Chunk) (h : ∀ x ∈ front, steppedOver key now x = true) :
    scan unmarshal key now (front ++ rest) = scan unmarshal key now rest := by
  induction front with
  | nil => rfl
  | cons x xs ih =>
    rw [List.cons_append, scan_steppedOver unmarshal key now x _ (h x (List.mem_cons_self _ _))]
    exact ih (fun y hy => h y (List.mem_cons_of_mem _ hy))

theorem scan_error_of_broken (unmarshal : List Nat → Except Error CacheItem) (key : String)
    (now : Int) (front : List Chunk) (bad : Chunk) (rest : List Chunk)
    (hbad : broken key bad = true) :
    (scan unmarshal key now (front ++ bad :: rest)).2 ≠ none := by
  induction front with
  | nil =>
    rw [List.nil_append, scan_broken unmarshal key now bad rest hbad]
    simp
  | cons x xs ih =>
    rw [List.cons_append]
    rcases record_cases key now x with hx | hx | hx
    · rw [scan_validMatch unmarshal key now x _ hx]
      simp
    · rw [scan_steppedOver unmarshal key now x _ hx]
      exact ih
    · rw [scan_broken unmarshal key now x _ hx]
      simp

theorem steppedOver_of_not (key : String) (now : Int) (ch : Chunk)
    (h1 : validMatch key now ch = false) (h2 : broken key ch = false) :
    steppedOver key now ch = true := by
  rcases record_cases key now ch with h | h | h
  · rw [h1] at h; cases h
  · exact h
  · rw [h2] at h; cases h

/-- C10: `Get` never returns an item: its result is no item and no error, or no
item and an error. The value of a decoded record never passes the byte-slice
check, so whenever the scan reaches, past records it steps over, a record whose
key is the requested one and whose decoded expiration exceeds the clock, `Get`
returns the error "invalid cache data format". -/
theorem C10_get_never_returns_item (c : LocalFileDriver)
    (unmarshal : List Nat → Except Error CacheItem) (fs : FS) (key : String) (now : Int) :
    (c.Get unmarshal fs key now).1 = none
    ∧ (c.Get unmarshal fs key now = (none, none)
        ∨ ∃ err, c.Get unmarshal fs key now = (none, some err))
    ∧ (∀ ch m, Decode ch = .ok m → (mapIndex m "value").asBytes = none)
    ∧ (∀ front r rest, fs (c.filePathForKey key) = .file (front ++ r :: rest) →
        (∀ x ∈ front, steppedOver key now x = true) → validMatch key now r = true →
        c.Get unmarshal fs key now = (none, some (.errorf "invalid cache data format"))) := by
  have hitem : (c.Get unmarshal fs key now).1 = none := by
    unfold LocalFileDriver.Get
    split
    · split <;> rfl
    · exact scan_item unmarshal key now _
  refine ⟨hitem, ?_, fun ch m h => Decode_asBytes ch m "value" h, ?_⟩
  · rcases hget : c.Get unmarshal fs key now with ⟨item, err⟩
    rw [hget] at hitem
    simp only at hitem
    subst hitem
    cases err with
    | none => exact Or.inl rfl
    | some e => exact Or.inr ⟨e, rfl⟩
  · intro front r rest hfile hfront hr
    rw [Get_of_file c unmarshal fs key now _ hfile,
      scan_steppedOver_all unmarshal key now front _ hfront,
      scan_validMatch unmarshal key now r rest hr]
    rfl

/-- C10 at a journal holding an expired record of the key, a live one and garbage. -/
theorem C10_get_never_returns_item_witness :
    steppedOver "test" 1700000000000000000
        (record "test" (.str "old") 1600000000000000000 1500000000000000000) = true
    ∧ validMatch "test" 1700000000000000000
        (record "test" (.str "test") 1800000000000000000 1700000000000000000) = true
    ∧ ∀ unmarshal, testDriver.Get unmarshal
        (emptyFS.write (testDriver.filePathForKey "test")
          (.file ([record "test" (.str "old") 1600000000000000000 1500000000000000000]
            ++ record "test" (.str "test") 1800000000000000000 1700000000000000000
            :: [Chunk.garbage (.json "unexpected end of JSON input")])))
        "test" 1700000000000000000 = (none, some (.errorf "invalid cache data format")) :=
  ⟨by decide, by decide, fun unmarshal =>
    (C10_get_never_returns_item testDriver unmarshal _ "test" 1700000000000000000).2.2.2
      [record "test" (.str "old") 1600000000000000000 1500000000000000000]
      (record "test" (.str "test") 1800000000000000000 1700000000000000000)
      [Chunk.garbage (.json "unexpected end of JSON input")]
      (FS.write_same _ _ _)
      (by decide) (by decide)⟩

/-- C8, amended: when a record of the journal does not decode into a map, or has a
key that is missing or no string, or has the requested key and an expiration
that is missing or no number, and no earlier record is a valid match, `Get`
returns an error and no item, and the error is that of this record when no
earlier record is such a one. A record that decodes with another string key, or
with the requested key and an expiration not after the clock, is stepped over,
whatever its other fields hold. -/
theorem C8_broken_record_aborts (c : LocalFileDriver)
    (unmarshal : List Nat → Except Error CacheItem) (fs : FS) (key : String) (now : Int)
    (front : List Chunk) (bad : Chunk) (rest : List Chunk)
    (hfile : fs (c.filePathForKey key) = .file (front ++ bad :: rest))
    (hbad : broken key bad = true)
    (hfront : ∀ x ∈ front, validMatch key now x = false) :
    (c.Get unmarshal fs key now).1 = none
    ∧ (c.Get unmarshal fs key now).2 ≠ none
    ∧ ((∀ x ∈ front, broken key x = false) →
        c.Get unmarshal fs key now = (none, some (brokenError bad)))
    ∧ (∀ (fs2 : FS) (x : Chunk) (rest2 : List Chunk),
        fs2 (c.filePathForKey key) = .file (x :: rest2) → steppedOver key now x = true →
        c.Get unmarshal fs2 key now
          = c.Get unmarshal (fs2.write (c.filePathForKey key) (.file rest2)) key now) := by
  rw [Get_of_file c unmarshal fs key now _ hfile]
  refine ⟨scan_item _ _ _ _, scan_error_of_broken unmarshal key now front bad rest hbad, ?_, ?_⟩
  · intro hwell
    rw [scan_steppedOver_all unmarshal key now front _
      (fun x hx => steppedOver_of_not key now x (hfront x hx) (hwell x hx))]
    exact scan_broken unmarshal key now bad rest hbad
  · intro fs2 x rest2 hfs2 hx
    rw [Get_of_file c unmarshal fs2 key now _ hfs2,
      Get_of_file c unmarshal _ key now rest2 (FS.write_same _ _ _)]
    exact scan_steppedOver unmarshal key now x rest2 hx

/-- C8 at a journal whose second record is not JSON, after an expired record. -/
theorem C8_broken_record_aborts_witness :
    broken "test" (Chunk.garbage (.json "invalid character")) = true
    ∧ validMatch "test" 1700000000000000000
        (record "test" (.str "old") 1600000000000000000 1500000000000000000) = false
    ∧ ∀ unmarshal, testDriver.Get unmarshal
        (emptyFS.write (testDriver.filePathForKey "test")
          (.file ([record "test" (.str "old") 1600000000000000000 1500000000000000000]
            ++ Chunk.garbage (.json "invalid character") :: [])))
        "test" 1700000000000000000 = (none, some (.json "invalid character")) :=
  ⟨by decide, by decide, fun unmarshal =>
    (C8_broken_record_aborts testDriver unmarshal _ "test" 1700000000000000000
      [record "test" (.str "old") 1600000000000000000 1500000000000000000]
      (Chunk.garbage (.json "invalid character")) []
      (FS.write_same _ _ _) (by decide) (by decide)).2.2.1 (by decide)⟩

/-- C8 as stated fails: in a journal whose only record has another key, a string
as expiration and no value, `Get` steps over the record and returns no item and
no error. -/
theorem C8_counterexample :
    (∃ m, Decode strayRecord = .ok m
        ∧ (mapIndex m "expiration").asFloat64 = none
        ∧ (mapIndex m "value").asBytes = none)
    ∧ (∀ unmarshal now, testDriver.Get unmarshal
        (emptyFS.write (testDriver.filePathForKey "k") (.file [strayRecord])) "k" now
        = (none, none)) := by
  refine ⟨⟨_, rfl, rfl, rfl⟩, fun unmarshal now => ?_⟩
  rw [Get_of_file testDriver unmarshal _ "k" now _ (FS.write_same _ _ _),
    scan_steppedOver unmarshal "k" now strayRecord [] rfl]
  rfl

/-! ## The operations in sequence, at concrete inputs -/

set_option maxRecDepth 100000 in
/-- C1: the call of the repository's test, `Set("test", "test", 100µs)` on a state
with no journal, returns no error, and `Get("test")` at the same clock reading,
before the expiration, returns no item and the error "invalid cache data format". -/
theorem C1_set_then_get :
    (testDriver.Set emptyFS "test" (.data (.str "test")) 100000 1700000000000000000
        1700000000000000000).2 = none
    ∧ (testDriver.Set emptyFS "test" (.data (.str "test")) 100000 1700000000000000000
        1700000000000000000).1.journal (testDriver.filePathForKey "test")
        = [record "test" (.str "test") 1700000000000100000 1700000000000000000]
    ∧ (∀ unmarshal, testDriver.Get unmarshal
        (testDriver.Set emptyFS "test" (.data (.str "test")) 100000 1700000000000000000
          1700000000000000000).1 "test" 1700000000000000000
        = (none, some (.errorf "invalid cache data format"))) :=
  ⟨by rfl, by rfl, fun _ => by rfl⟩

set_option maxRecDepth 100000 in
/-- C2: after `Set(k, "A", 1 hour)` and `Set(k, "B", 1 hour)` on a state with no
journal, the journal holds the two records in that order, and `Get(k)` right
after returns no item and the error "invalid cache data format". -/
theorem C2_first_match :
    (runSets testDriver "k" emptyFS
        [⟨.data (.str "A"), 3600000000000, 1700000000000000000, 1700000000000000000⟩,
         ⟨.data (.str "B"), 3600000000000, 1700000000000001000, 1700000000000001000⟩]).journal
        (testDriver.filePathForKey "k")
        = [record "k" (.str "A") 1700003600000000000 1700000000000000000,
           record "k" (.str "B") 1700003600000001000 1700000000000001000]
    ∧ (∀ unmarshal, testDriver.Get unmarshal
        (runSets testDriver "k" emptyFS
          [⟨.data (.str "A"), 3600000000000, 1700000000000000000, 1700000000000000000⟩,
           ⟨.data (.str "B"), 3600000000000, 1700000000000001000, 1700000000000001000⟩])
        "k" 1700000000000002000
        = (none, some (.errorf "invalid cache data format"))) :=
  ⟨by rfl, fun _ => by rfl⟩

set_option maxRecDepth 100000 in
/-- C4: `Set(k, v, 1 second)` at clock reading 1700000000000000200 on a state with
no journal stores the expiration 1700000001000000200; read back as a `float64`
it is 1700000001000000256, and `Get(k)` at the clock reading 1700000001000000200,
when the duration has elapsed, returns the error "invalid cache data format"
instead of no item and no error, which it returns from the reading
1700000001000000256 on. -/
theorem C4_get_at_expiration :
    (testDriver.Set emptyFS "k" (.data (.str "v")) 1000000000 1700000000000000200
        1700000000000000200).1.journal (testDriver.filePathForKey "k")
        = [record "k" (.str "v") 1700000001000000200 1700000000000000200]
    ∧ (ParseFloat 1700000001000000200 0).map int64OfFloat64 = some 1700000001000000256
    ∧ (∀ unmarshal, testDriver.Get unmarshal
        (testDriver.Set emptyFS "k" (.data (.str "v")) 1000000000 1700000000000000200
          1700000000000000200).1 "k" 1700000001000000200
        = (none, some (.errorf "invalid cache data format")))
    ∧ (∀ unmarshal, testDriver.Get unmarshal
        (testDriver.Set emptyFS "k" (.data (.str "v")) 1000000000 1700000000000000200
          1700000000000000200).1 "k" 1700000001000000256
        = (none, none)) :=
  ⟨by rfl, by decide, fun _ => by rfl, fun _ => by rfl⟩

end Local
